import Mathlib

/-!
Shallow embedding of `sched_talks.py` (PyConES-2019-data).

The script fetches a conference schedule from sched.com, downloads the
attachments of every talk, renders a Markdown document and writes it to
`README.md`.  Pure string manipulation is translated directly; the network
and the clock are passed in as explicit oracles; filesystem effects are
recorded as a list of events; a raised Python exception is an `err` value
of the explicit result type.
-/

namespace Sched

/-- Python exception kinds raised by the script or the libraries it calls. -/
inductive PyError where
  | attributeError (attr : String)
  | exception (msg : String)
  | typeError (msg : String)
  | requestError (msg : String)
deriving DecidableEq, Repr

/-- Result of a Python computation: a value, or a raised exception. -/
inductive PResult (α : Type) where
  | ok (val : α)
  | err (e : PyError)
deriving DecidableEq, Repr

/-- An HTTP response as seen through the requests library: its truthiness
(`bool(response)` is true for status codes below 400) and its body. -/
structure Response where
  truthy : Bool
  content : String
deriving DecidableEq, Repr

/-- Observable filesystem effects of a run. -/
inductive Event where
  | mkdir (dir : String)
  | writeFile (path : String) (data : String)
deriving DecidableEq, Repr

/-- The network, as oracles: the response of the schedule endpoint for a
given URL, and the body fetched from an attachment URL (or the requests
exception raised while fetching it). -/
structure Net where
  scheduleGet : String → Response
  fetchFile : String → PResult String

/-- One entry of the `speakers` list of a talk: a mapping that may lack
the `name` key (`speaker.get` at line 49). -/
structure Speaker where
  name : Option String
deriving DecidableEq, Repr

/-- A raw attachment descriptor from the schedule JSON: mappings read with
`attachment.get` at lines 131 and 132, so either key may be absent. -/
structure RawAttachment where
  path : Option String
  name : Option String
deriving DecidableEq, Repr

/-- A resolved attachment record as built at lines 147 to 151. -/
structure ResolvedAttachment where
  file_url : String
  file_path : String
  file_name : String
deriving DecidableEq, Repr

/-- One talk mapping from the schedule JSON.  Every field is read with
`talk.get`, so every field may be absent.  `attachments` is absent in the
raw JSON and is only introduced by the assignment at line 122. -/
structure Talk where
  id : Option String
  name : Option String
  speakers : Option (List Speaker)
  event_start : Option String
  description : Option String
  files : Option (List RawAttachment)
  attachments : Option (List ResolvedAttachment)
deriving DecidableEq, Repr

/-- The resolved settings mapping (lines 23 to 27). -/
structure Settings where
  output_dir : String
  api_key : Option String
deriving DecidableEq, Repr

/-- The two environment variables consulted at line 25. -/
structure Env where
  SCHED_API_KEY : Option String
  SCHED_KEY : Option String
deriving DecidableEq, Repr

/-- The keyword arguments passed to the constructor: each key may be in
the mapping or not.  `__main__` passes `api_key` only with a truthy string
value, so a present `api_key` carries a plain string. -/
structure Kwargs where
  output_dir : Option String
  api_key : Option String
deriving DecidableEq, Repr

/-- The state of a fully constructed `SchedTalks` object. -/
structure SchedState where
  settings : Settings
  talks : List Talk
deriving DecidableEq, Repr

/-- Rendering of a possibly absent value inside a Python f-string:
`None` renders as the literal string `None`. -/
def optStr : Option String → String
  | none => "None"
  | some s => s

/-- The apostrophe character, U+0027. -/
def sqc : Char := Char.ofNat 39

/-- The apostrophe, as a one-character string. -/
def sq : String := ⟨[sqc]⟩

/-- Python `s.replace(old, "")` for a one-character pattern, as used at line 63:
every occurrence of the character is removed. -/
def removeChar (c : Char) (s : String) : String := ⟨s.data.filter (fun d => d ≠ c)⟩

/-- Line 63: `description.replace("\n", "").replace("\r", "")`. -/
def stripNL (s : String) : String := removeChar '\r' (removeChar '\n' s)

/-- Python `os.path.join` for two components, posix rules: an absolute second
component replaces the first; otherwise a separator is inserted unless the
first component is empty or already ends with one. -/
def osJoin (a b : String) : String :=
  if b.data.head? = some ('/' : Char) then b
  else if a.data = [] ∨ a.data.getLast? = some ('/' : Char) then a ++ b
  else a ++ ("/") ++ b

/-- Python `os.path.splitext`, posix rules: split at the last dot of the last
path component, unless that component consists of leading dots only. -/
def splitext (p : String) : String × String :=
  let r := p.data.reverse
  let comp := r.takeWhile (fun c => c != '/')
  let afterDot := comp.takeWhile (fun c => c != '.')
  if afterDot.length < comp.length && (comp.drop (afterDot.length + 1)).any (fun c => c != '.') then
    (⟨(r.drop (afterDot.length + 1)).reverse⟩, ⟨'.' :: afterDot.reverse⟩)
  else (p, "")

/-- Characters kept by the slugifier after lowercasing. -/
def isSlugKeep (c : Char) : Bool := c.isLower || c.isDigit

/-- Maximal runs of kept characters, in order; characters outside the
runs are the separators that the slugifier collapses. -/
def slugWords : List Char → List (List Char)
  | [] => []
  | c :: rest =>
    if isSlugKeep c then
      match rest with
      | [] => [[c]]
      | d :: _ =>
        if isSlugKeep d then (c :: (slugWords rest).headD []) :: (slugWords rest).tail
        else [c] :: slugWords rest
    else slugWords rest

/-- Join a list of words with single hyphens. -/
def hyphenJoin : List (List Char) → List Char
  | [] => []
  | [w] => w
  | w :: ws => w ++ '-' :: hyphenJoin ws

/-- The `slugify` library as used at lines 114 and 138, modelled for its
documented behaviour on ASCII text: lowercase, keep alphanumeric runs,
collapse every other run into a single hyphen, strip edge hyphens. -/
def slugify (s : String) : String := ⟨hyphenJoin (slugWords (s.data.map Char.toLower))⟩

/-- The schedule export URL built at line 98. -/
def schedUrl (key : Option String) : String :=
  "https://pycones19.sched.com/api/session/export?api_key=" ++ optStr key
    ++ "&format=json&strip_html=Y&fields=id,files,name,speakers,event_start,description"

/-- The message of the exception raised at line 105.  The f-string there
opens a quote before the body and never closes it. -/
def parseErrMsg (body : String) : String :=
  "Sched Talks can" ++ sq ++ "t be correctly retrieved: " ++ sq ++ body

/-- Lines 49 and 50: speaker names with `Unknown` as the default for a
speaker mapping that lacks the `name` key. -/
def speakerNames (t : Talk) : List String :=
  (t.speakers.getD []).map (fun sp => sp.name.getD ("Unknown"))

/-- Python string join with an empty separator, as used at line 69. -/
def concatStrs : List String → String
  | [] => ""
  | s :: rest => s ++ concatStrs rest

/-- One rendered attachment entry without its closing newline (line 70):
the display text is `file_name`, the link target is `file_path`. -/
def attachmentEntryStr (a : ResolvedAttachment) : String :=
  "    - :paperclip: [" ++ a.file_name ++ "](" ++ a.file_path ++ ")"

/-- One rendered attachment entry (lines 70 to 71). -/
def attachmentEntry (a : ResolvedAttachment) : String := attachmentEntryStr a ++ ("\n")

/-- Lines 66 to 72: the attachment section, rendered only when the
`attachments` key is present and the list is truthy. -/
def attachPart : Option (List ResolvedAttachment) → String
  | none => ""
  | some l =>
    if l.isEmpty then ""
    else "  - :open_file_folder: Attachments" ++ ("\n") ++ concatStrs (l.map attachmentEntry)

/-- The description line without its closing newline (line 64). -/
def descStr (d : String) : String := "  - :clipboard:  " ++ stripNL d

/-- Lines 61 to 64: the description line, rendered only for a truthy
description, with newline and carriage-return characters removed. -/
def descPart : Option String → String
  | none => ""
  | some d => if d = "" then "" else descStr d ++ ("\n")

/-- The heading of a talk (line 57, without the newline). -/
def headingStr (t : Talk) : String := "### " ++ optStr t.name

/-- The speakers line of a talk (lines 56 and 58, without the newline). -/
def snakeStr (t : Talk) : String :=
  "  - :snake: _" ++ String.intercalate (", ") (speakerNames t) ++ "_"

/-- The start-time line of a talk (line 59, without the newline). -/
def alarmStr (t : Talk) : String := "  - :alarm_clock:  " ++ optStr t.event_start

/-- The more-info line of a talk (line 74). -/
def linkStr (t : Talk) : String :=
  "  - :link: [More info](https://pycones19.sched.com/event/" ++ optStr t.id ++ ")"

/-- Lines 57 to 74: the Markdown block of one talk (without the trailing
newline added by the loop at line 76). -/
def talkMd (t : Talk) : String :=
  headingStr t ++ ("\n")
    ++ snakeStr t ++ ("\n")
    ++ alarmStr t ++ ("\n")
    ++ descPart t.description
    ++ attachPart t.attachments
    ++ linkStr t

/-- The loop at lines 48 to 76: talks whose speaker list is empty are
skipped, every other talk contributes its block followed by a newline. -/
def talksBody : List Talk → String
  | [] => ""
  | t :: ts => (if (speakerNames t).isEmpty then "" else talkMd t ++ "\n") ++ talksBody ts

/-- The first fixed preamble line (line 44, without the newline). -/
def header1 : String := "# PyConES 2019 Conferences and their related stuff"

/-- The second fixed preamble line (line 45, without the newline). -/
def header2 : String :=
  "It contains all available talks, their attachments and other interesting information."

/-- The third fixed preamble line (line 46, without the newline). -/
def header3 : String := "## Talks"

/-- The fixed preamble emitted at lines 44 to 46. -/
def headerStr : String :=
  header1 ++ ("\n") ++ header2 ++ ("\n") ++ header3 ++ ("\n")

/-- Lines 161 to 169: the lightning-talks fragment read; any failure is
swallowed and yields the empty string.  The parameter is the file content
when the file is present and readable, `none` otherwise. -/
def ltContent (fsLt : Option String) : String := fsLt.getD ""

/-- Lines 79 to 81: the fragment is appended after a newline only when it
is a truthy (nonempty) string. -/
def ltPart (fsLt : Option String) : String :=
  if ltContent fsLt = "" then "" else "\n" ++ ltContent fsLt

/-- Line 83: the trailing generation line; `now` stands for the formatted
current time. -/
def footerStr (now : String) : String :=
  "\n_Automatically created with :hearts: at " ++ now ++ "_"

/-- The `as_md` property (lines 36 to 84). -/
def asMd (talks : List Talk) (fsLt : Option String) (now : String) : String :=
  headerStr ++ talksBody talks ++ ltPart fsLt ++ footerStr now

/-- Everything of the document after the talk blocks. -/
def tailStr (fsLt : Option String) (now : String) : String := ltPart fsLt ++ footerStr now

/-- Spec-side definition for claim C8: the document produced by a run in
which the fragment read is skipped altogether. -/
def asMdReadSkipped (talks : List Talk) (now : String) : String :=
  headerStr ++ talksBody talks ++ footerStr now

/-- Lines 130 to 151 for a single attachment: read `path` and `name`,
split the name, slugify the base, build the local path, fetch the URL,
write the body, and record the resolved attachment.  A missing `name`
makes `os.path.splitext` raise a TypeError; a missing `path` makes
`requests.get` raise; a network failure propagates. -/
def downloadOne (net : Net) (dest : String) (a : RawAttachment) :
    List Event × PResult ResolvedAttachment :=
  match a.name with
  | none => ([], .err (.typeError ("expected str, bytes or os.PathLike object, not NoneType")))
  | some file_name =>
    let cleaned := (splitext file_name).1
    let file_extension := (splitext file_name).2
    let file_path_local := osJoin dest (slugify cleaned ++ file_extension)
    match a.path with
    | none => ([], .err (.requestError ("Invalid URL")))
    | some file_url =>
      match net.fetchFile file_url with
      | .err e => ([], .err e)
      | .ok body => ([.writeFile file_path_local body], .ok ⟨file_url, file_path_local, file_name⟩)

/-- The `_download_attachments` helper (lines 126 to 153): resolve the
attachments in order; the first failure aborts the whole run. -/
def downloadAttachments (net : Net) (dest : String) :
    List RawAttachment → List Event × PResult (List ResolvedAttachment)
  | [] => ([], .ok [])
  | a :: rest =>
    match downloadOne net dest a with
    | (ev, .err e) => (ev, .err e)
    | (ev, .ok res) =>
      match downloadAttachments net dest rest with
      | (evs, .err e) => (ev ++ evs, .err e)
      | (evs, .ok l) => (ev ++ evs, .ok (res :: l))

/-- Lines 107 to 124 for one talk: when the `files` list is truthy, make
the per-talk directory under the output directory and resolve the
attachments into the new `attachments` key; otherwise leave the talk
unchanged. -/
def processTalk (net : Net) (od : String) (t : Talk) : List Event × PResult Talk :=
  if (t.files.getD []).isEmpty then ([], .ok t)
  else
    let talk_path := osJoin od (slugify (optStr t.name))
    match downloadAttachments net talk_path (t.files.getD []) with
    | (evs, .err e) => (Event.mkdir talk_path :: evs, .err e)
    | (evs, .ok l) =>
      (Event.mkdir talk_path :: evs,
        .ok ⟨t.id, t.name, t.speakers, t.event_start, t.description, t.files, some l⟩)

/-- The loop of `_get_talks` over the parsed talks, in order. -/
def processTalks (net : Net) (od : String) : List Talk → List Event × PResult (List Talk)
  | [] => ([], .ok [])
  | t :: ts =>
    match processTalk net od t with
    | (ev, .err e) => (ev, .err e)
    | (ev, .ok t2) =>
      match processTalks net od ts with
      | (evs, .err e) => (ev ++ evs, .err e)
      | (evs, .ok ts2) => (ev ++ evs, .ok (t2 :: ts2))

/-- The `_get_talks` method (lines 94 to 124).  The `json` slot is
assigned only inside the truthy branch at line 103; with a falsy response
the loop at line 107 reads the never-assigned slot, which raises an
AttributeError.  A truthy response with an unparseable body raises the
exception of line 105. -/
def getTalks (net : Net) (jsonLoads : String → Option (List Talk)) (s : Settings) :
    List Event × PResult (List Talk) :=
  let resp := net.scheduleGet (schedUrl s.api_key)
  if resp.truthy then
    match jsonLoads resp.content with
    | none => ([], .err (.exception (parseErrMsg resp.content)))
    | some ts => processTalks net s.output_dir ts
  else ([], .err (.attributeError ("json")))

/-- Line 25: the environment fallback chain for the API key.  `dict.get`
tests presence, not truthiness. -/
def envApiKey (env : Env) : Option String :=
  match env.SCHED_API_KEY with
  | some v => some v
  | none => env.SCHED_KEY

/-- Lines 23 to 27: the literal defaults overridden by the keyword
arguments. -/
def initSettings (env : Env) (kw : Kwargs) : Settings :=
  { output_dir := kw.output_dir.getD ("files")
    api_key :=
      match kw.api_key with
      | some v => some v
      | none => envApiKey env }

/-- The constructor (lines 20 to 33): resolve the settings, create the
output directory, fetch and process the talks. -/
def schedTalksInit (net : Net) (jsonLoads : String → Option (List Talk))
    (env : Env) (kw : Kwargs) : List Event × PResult SchedState :=
  let s := initSettings env kw
  match getTalks net jsonLoads s with
  | (evs, .err e) => (Event.mkdir s.output_dir :: evs, .err e)
  | (evs, .ok talks) => (Event.mkdir s.output_dir :: evs, .ok ⟨s, talks⟩)

/-- The `export_md` method (lines 155 to 159): write the rendered document. -/
def exportMd (st : SchedState) (fsLt : Option String) (now : String) (file_name : String) :
    List Event :=
  [Event.writeFile file_name (asMd st.talks fsLt now)]

/-- Lines 172 to 184: the keyword arguments built by the option parser.
`output_dir` always has a value (flag value or the literal default);
`api_key` is deleted from the mapping when it is falsy. -/
def mainKwargs (cliOutputDir : Option String) (cliApiKey : Option String) : Kwargs :=
  { output_dir := some (cliOutputDir.getD ("files"))
    api_key :=
      match cliApiKey with
      | none => none
      | some k => if k = "" then none else some k }

/-- The settings a `__main__` run resolves. -/
def mainSettings (env : Env) (cliOutputDir : Option String) (cliApiKey : Option String) :
    Settings :=
  initSettings env (mainKwargs cliOutputDir cliApiKey)

/-- Lines 186 to 187: construct the object, then export to `README.md`.
A raised exception terminates the run before the export. -/
def mainRun (net : Net) (jsonLoads : String → Option (List Talk)) (env : Env)
    (fsLt : Option String) (now : String)
    (cliOutputDir : Option String) (cliApiKey : Option String) :
    List Event × PResult Unit :=
  match schedTalksInit net jsonLoads env (mainKwargs cliOutputDir cliApiKey) with
  | (evs, .err e) => (evs, .err e)
  | (evs, .ok st) => (evs ++ exportMd st fsLt now ("README.md"), .ok ())

/-- Whether an event writes the file at path `p`. -/
def writesTo (p : String) : Event → Bool
  | .writeFile q _ => q == p
  | .mkdir _ => false

/-- Split a character list at newline characters; a trailing newline
yields a trailing empty line, the empty list yields one empty line. -/
def splitNL : List Char → List (List Char)
  | [] => [[]]
  | c :: rest =>
    if c = '\n' then [] :: splitNL rest
    else (c :: (splitNL rest).headD []) :: (splitNL rest).tail

/-- The lines of the rendered document. -/
def docLines (talks : List Talk) (fsLt : Option String) (now : String) : List (List Char) :=
  splitNL (asMd talks fsLt now).data

/-- The list `cs` consists exactly of the lines `L`, each closed by a newline. -/
def FullLines (cs : List Char) (L : List (List Char)) : Prop := splitNL cs = L ++ [[]]

instance (cs : List Char) (L : List (List Char)) : Decidable (FullLines cs L) := by
  unfold FullLines; infer_instance

/-- The heading line rendered for a talk. -/
def headingLine (t : Talk) : List Char := (headingStr t).data

/-- The speakers line rendered for a talk. -/
def speakersLine (t : Talk) : List Char := (snakeStr t).data

/-- The start-time line rendered for a talk. -/
def alarmLine (t : Talk) : List Char := (alarmStr t).data

/-- The description lines rendered for a talk: none, or one. -/
def descLines : Option String → List (List Char)
  | none => []
  | some d => if d = "" then [] else [(descStr d).data]

/-- One rendered attachment entry, without its closing newline. -/
def attachmentEntryLine (a : ResolvedAttachment) : List Char := (attachmentEntryStr a).data

/-- The attachment-section lines rendered for a talk. -/
def attachLines : Option (List ResolvedAttachment) → List (List Char)
  | none => []
  | some l =>
    if l.isEmpty then []
    else ("  - :open_file_folder: Attachments").data :: l.map attachmentEntryLine

/-- The more-info line rendered for a talk. -/
def linkLine (t : Talk) : List Char := (linkStr t).data

/-- All lines of the block rendered for one talk. -/
def talkLines (t : Talk) : List (List Char) :=
  headingLine t :: speakersLine t :: alarmLine t ::
    (descLines t.description ++ attachLines t.attachments ++ [linkLine t])

/-- The lines contributed by a list of talks: speakerless talks are
skipped, the others contribute their block lines in order. -/
def blocksLines : List Talk → List (List Char)
  | [] => []
  | t :: ts => (if (speakerNames t).isEmpty then [] else talkLines t) ++ blocksLines ts

/-- The three fixed preamble lines. -/
def headerLines : List (List Char) := [header1.data, header2.data, header3.data]

/-- Witness data: a talk with two speakers, one of them named. -/
def wTalkA : Talk :=
  ⟨some "1", some "Alpha", some [⟨some "Ann"⟩, ⟨some "Bob"⟩], some "10:00",
    some "d1\nd2", none, none⟩

/-- Witness data: a speakerless schedule entry. -/
def wTalkB : Talk := ⟨some "2", some "Break", some [], none, none, none, none⟩

/-- Witness data: a network whose schedule endpoint answers and whose file
fetches succeed with a fixed body. -/
def wNet : Net := ⟨fun _ => ⟨true, "[]"⟩, fun _ => .ok ("BODY")⟩

/-- Witness data: a network that fails with a falsy response. -/
def wNetDown : Net := ⟨fun _ => ⟨false, "down"⟩, fun _ => .err (.requestError ("conn"))⟩

/-- Witness data: a network whose schedule endpoint answers 200 with a
body that is not JSON. -/
def wNetBad : Net := ⟨fun _ => ⟨true, "not json"⟩, fun _ => .err (.requestError ("conn"))⟩

/-- Witness data: a JSON parser oracle that always fails. -/
def wJlNone : String → Option (List Talk) := fun _ => none

/-- Witness data: a JSON parser oracle that yields no talks. -/
def wJlEmpty : String → Option (List Talk) := fun _ => some []

/-- Witness data: two raw attachment descriptors. -/
def wRaw : RawAttachment := ⟨some "http://x/A B.pdf", some "A B.pdf"⟩

/-- Witness data: a second raw attachment descriptor. -/
def wRaw2 : RawAttachment := ⟨some "http://x/notes.txt", some "notes.txt"⟩

/-- Witness data: the resolved record for `wRaw` under `files/my-talk`. -/
def wAtt : ResolvedAttachment := ⟨"http://x/A B.pdf", "files/my-talk/a-b.pdf", "A B.pdf"⟩

/-- Witness data: the resolved record for `wRaw2` under `files/my-talk`. -/
def wAtt2 : ResolvedAttachment := ⟨"http://x/notes.txt", "files/my-talk/notes.txt", "notes.txt"⟩

/-- Witness data: a talk with one speaker and one attachment descriptor. -/
def wTalkC : Talk :=
  ⟨some "3", some "My Talk", some [⟨some "Ann"⟩], some "t", none, some [wRaw], none⟩

/-- Witness data: `wTalkC` after its download step. -/
def wTalkC2 : Talk :=
  ⟨some "3", some "My Talk", some [⟨some "Ann"⟩], some "t", none, some [wRaw], some [wAtt]⟩

/-- Witness data: a talk whose description embeds newlines. -/
def wTalkD : Talk :=
  ⟨some "4", some "Desc Talk", some [⟨some "Ann"⟩], some "t",
    some "line1\nline2\r\n", none, none⟩

/-- Witness data: a talk with a single nameless speaker mapping. -/
def wTalkE : Talk := ⟨some "5", some "NoName Talk", some [⟨none⟩], some "t", none, none, none⟩

/-- The string contains no newline character. -/
def noNL (s : String) : Prop := ('\n' : Char) ∉ s.data

instance (s : String) : Decidable (noNL s) := by unfold noNL; infer_instance

/-- Well-formedness of the rendered fields of a talk: none of the strings
interpolated into a single Markdown line embeds a newline.  The
description needs no such condition, its newlines are stripped. -/
def TalkWF (t : Talk) : Prop :=
  noNL (optStr t.name) ∧ noNL (optStr t.event_start) ∧ noNL (optStr t.id)
    ∧ (∀ sp ∈ t.speakers.getD [], noNL (sp.name.getD ("Unknown")))
    ∧ (∀ a ∈ t.attachments.getD [], noNL a.file_name ∧ noNL a.file_path)

instance (t : Talk) : Decidable (TalkWF t) := by unfold TalkWF; infer_instance

theorem splitNL_ne_nil (l : List Char) : splitNL l ≠ [] := by
  cases l with
  | nil => simp [splitNL]
  | cons c rest => by_cases h : c = '\n' <;> simp [splitNL, h]

theorem splitNL_reconstruct (l : List Char) :
    (splitNL l).headD [] :: (splitNL l).tail = splitNL l := by
  cases h : splitNL l with
  | nil => exact absurd h (splitNL_ne_nil l)
  | cons a as => rfl

theorem splitNL_noNL_append (xs ys : List Char) (h : ('\n' : Char) ∉ xs) :
    splitNL (xs ++ ys) = (xs ++ (splitNL ys).headD []) :: (splitNL ys).tail := by
  induction xs with
  | nil => simpa using (splitNL_reconstruct ys).symm
  | cons c xs ih =>
    have hc : c ≠ '\n' := fun hc => h (hc ▸ List.mem_cons_self c xs)
    have h2 : ('\n' : Char) ∉ xs := fun hm => h (List.mem_cons_of_mem _ hm)
    simp [splitNL, hc, ih h2]

theorem splitNL_fullLines_append (a : List Char) :
    ∀ L ys, splitNL a = L ++ [[]] → splitNL (a ++ ys) = L ++ splitNL ys := by
  induction a with
  | nil =>
    intro L ys h
    simp only [splitNL] at h
    cases L with
    | nil => simpa using (splitNL_reconstruct ys).symm ▸ rfl
    | cons x L2 => simp at h
  | cons c a ih =>
    intro L ys h
    by_cases hc : c = '\n'
    · subst hc
      simp only [splitNL, if_pos rfl] at h
      cases L with
      | nil =>
        simp at h
        exact absurd h (splitNL_ne_nil a)
      | cons x L2 =>
        simp only [List.cons_append] at h
        obtain ⟨hx, ha⟩ := List.cons.inj h
        subst hx
        show splitNL ('\n' :: (a ++ ys)) = [] :: (L2 ++ splitNL ys)
        simp [splitNL, ih L2 ys ha]
    · simp only [splitNL, if_neg hc] at h
      cases hS : splitNL a with
      | nil => exact absurd hS (splitNL_ne_nil a)
      | cons s0 tS =>
        rw [hS] at h
        cases L with
        | nil => simp at h
        | cons x L2 =>
          simp only [List.cons_append] at h
          obtain ⟨hx, ht⟩ := List.cons.inj h
          simp only [List.tail_cons] at ht
          have hFL : splitNL a = (s0 :: L2) ++ [[]] := by
            rw [hS, ht]; rfl
          have h3 := ih (s0 :: L2) ys hFL
          show splitNL (c :: (a ++ ys)) = x :: (L2 ++ splitNL ys)
          simp only [splitNL, if_neg hc, h3]
          simp only [List.cons_append] at h3 ⊢
          simp [← hx]

theorem FullLines.append {a b : List Char} {L M : List (List Char)}
    (h1 : FullLines a L) (h2 : FullLines b M) : FullLines (a ++ b) (L ++ M) := by
  unfold FullLines at *
  rw [splitNL_fullLines_append a L b h1, h2, List.append_assoc]

theorem FullLines.empty : FullLines [] [] := rfl

theorem fullLines_single {l : List Char} (h : ('\n' : Char) ∉ l) :
    FullLines (l ++ ['\n']) [l] := by
  unfold FullLines
  rw [splitNL_noNL_append _ _ h]
  simp [splitNL]

theorem fullLines_line {s : String} (h : noNL s) : FullLines (s ++ ("\n")).data [s.data] := by
  rw [String.data_append]
  exact fullLines_single h

theorem noNL_append {a b : String} (ha : noNL a) (hb : noNL b) : noNL (a ++ b) := by
  unfold noNL at *
  rw [String.data_append]
  simp only [List.mem_append]
  tauto

theorem noNL_stripNL (d : String) : noNL (stripNL d) := by
  unfold noNL stripNL removeChar
  intro hm
  simp [List.mem_filter] at hm

theorem noNL_intercalate_go {sep acc : String} {l : List String} (hacc : noNL acc)
    (hsep : noNL sep) (h : ∀ s ∈ l, noNL s) : noNL (String.intercalate.go acc sep l) := by
  induction l generalizing acc with
  | nil => exact hacc
  | cons a as ih =>
    simp only [String.intercalate.go]
    exact ih (noNL_append (noNL_append hacc hsep) (h a (List.mem_cons_self a as)))
      (fun s hs => h s (List.mem_cons_of_mem _ hs))

theorem noNL_intercalate {sep : String} {l : List String} (hsep : noNL sep)
    (h : ∀ s ∈ l, noNL s) : noNL (String.intercalate sep l) := by
  cases l with
  | nil => intro hm; simp [String.intercalate] at hm
  | cons a as =>
    exact noNL_intercalate_go (h a (List.mem_cons_self a as)) hsep
      (fun s hs => h s (List.mem_cons_of_mem _ hs))

theorem fullLines_descPart (d : Option String) :
    FullLines (descPart d).data (descLines d) := by
  cases d with
  | none => exact FullLines.empty
  | some d =>
    by_cases hd : d = ""
    · simp only [descPart, descLines, if_pos hd]; exact FullLines.empty
    · simp only [descPart, descLines, if_neg hd]
      exact fullLines_line (noNL_append (by decide) (noNL_stripNL d))

theorem noNL_attachmentEntryStr {a : ResolvedAttachment}
    (h1 : noNL a.file_name) (h2 : noNL a.file_path) : noNL (attachmentEntryStr a) :=
  noNL_append (noNL_append (noNL_append (noNL_append (by decide) h1) (by decide)) h2)
    (by decide)

theorem fullLines_entries (l : List ResolvedAttachment)
    (h : ∀ a ∈ l, noNL a.file_name ∧ noNL a.file_path) :
    FullLines (concatStrs (l.map attachmentEntry)).data (l.map attachmentEntryLine) := by
  induction l with
  | nil => exact FullLines.empty
  | cons a as ih =>
    simp only [List.map_cons, concatStrs]
    rw [String.data_append]
    have ha := h a (List.mem_cons_self a as)
    exact FullLines.append (fullLines_line (noNL_attachmentEntryStr ha.1 ha.2))
      (ih fun b hb => h b (List.mem_cons_of_mem _ hb))

theorem fullLines_attachPart (o : Option (List ResolvedAttachment))
    (h : ∀ a ∈ o.getD [], noNL a.file_name ∧ noNL a.file_path) :
    FullLines (attachPart o).data (attachLines o) := by
  cases o with
  | none => exact FullLines.empty
  | some l =>
    by_cases hl : l.isEmpty
    · simp only [attachPart, attachLines, if_pos hl]; exact FullLines.empty
    · simp only [attachPart, attachLines, if_neg hl]
      have h1 : FullLines (("  - :open_file_folder: Attachments" : String) ++ ("\n")).data
          [("  - :open_file_folder: Attachments" : String).data] :=
        fullLines_line (by decide)
      have h2 := fullLines_entries l (by simpa using h)
      have h3 := FullLines.append h1 h2
      simpa [String.data_append] using h3

theorem noNL_snakeStr (t : Talk) (h : ∀ sp ∈ t.speakers.getD [], noNL (sp.name.getD ("Unknown"))) :
    noNL (snakeStr t) := by
  refine noNL_append (noNL_append (by decide) ?_) (by decide)
  refine noNL_intercalate (by decide) ?_
  intro s hs
  simp only [speakerNames, List.mem_map] at hs
  obtain ⟨sp, hsp, rfl⟩ := hs
  exact h sp hsp

theorem fullLines_talkBlock (t : Talk) (h : TalkWF t) :
    FullLines (talkMd t ++ ("\n")).data (talkLines t) := by
  obtain ⟨hn, he, hi, hsp, hat⟩ := h
  have h1 : FullLines ((headingStr t ++ ("\n"))).data [headingLine t] :=
    fullLines_line (noNL_append (by decide) hn)
  have h2 : FullLines ((snakeStr t ++ ("\n"))).data [speakersLine t] :=
    fullLines_line (noNL_snakeStr t hsp)
  have h3 : FullLines ((alarmStr t ++ ("\n"))).data [alarmLine t] :=
    fullLines_line (noNL_append (by decide) he)
  have h4 := fullLines_descPart t.description
  have h5 := fullLines_attachPart t.attachments hat
  have h6 : FullLines ((linkStr t ++ ("\n"))).data [linkLine t] :=
    fullLines_line (noNL_append (noNL_append (by decide) hi) (by decide))
  have hall := FullLines.append (FullLines.append (FullLines.append
    (FullLines.append (FullLines.append h1 h2) h3) h4) h5) h6
  have hx : (talkMd t ++ ("\n")).data =
      (((((headingStr t ++ ("\n")).data ++ (snakeStr t ++ ("\n")).data)
        ++ (alarmStr t ++ ("\n")).data) ++ (descPart t.description).data)
        ++ (attachPart t.attachments).data) ++ (linkStr t ++ ("\n")).data := by
    simp [talkMd, List.append_assoc]
  have hL : talkLines t =
      (((([headingLine t] ++ [speakersLine t]) ++ [alarmLine t])
        ++ descLines t.description) ++ attachLines t.attachments) ++ [linkLine t] := by
    simp [talkLines]
  rw [FullLines, hx, hL]
  exact hall

theorem fullLines_talksBody (talks : List Talk) (h : ∀ t ∈ talks, TalkWF t) :
    FullLines (talksBody talks).data (blocksLines talks) := by
  induction talks with
  | nil => exact FullLines.empty
  | cons t ts ih =>
    simp only [talksBody, blocksLines]
    rw [String.data_append]
    refine FullLines.append ?_ (ih fun u hu => h u (List.mem_cons_of_mem _ hu))
    by_cases hb : (speakerNames t).isEmpty
    · simp only [if_pos hb]; exact FullLines.empty
    · simp only [if_neg hb]
      exact fullLines_talkBlock t (h t (List.mem_cons_self t ts))

theorem fullLines_header : FullLines headerStr.data headerLines := by decide

theorem docLines_decomp (talks : List Talk) (fsLt : Option String) (now : String)
    (h : ∀ t ∈ talks, TalkWF t) :
    docLines talks fsLt now =
      headerLines ++ blocksLines talks ++ splitNL (tailStr fsLt now).data := by
  have h12 := FullLines.append fullLines_header (fullLines_talksBody talks h)
  have hx : (asMd talks fsLt now).data =
      (headerStr.data ++ (talksBody talks).data) ++ (tailStr fsLt now).data := by
    simp [asMd, tailStr, List.append_assoc]
  rw [docLines, hx, splitNL_fullLines_append _ _ _ h12, List.append_assoc]

theorem headingLine_eq (t : Talk) :
    headingLine t = '#' :: '#' :: '#' :: ' ' :: (optStr t.name).data := by
  have h4 : ("### " : String).data = ['#', '#', '#', ' '] := rfl
  simp [headingLine, headingStr, h4]

theorem headingLine_inj {u t : Talk} :
    headingLine u = headingLine t ↔ optStr u.name = optStr t.name := by
  simp [headingLine_eq, String.ext_iff]

theorem headingLine_head (t : Talk) : (headingLine t).head? = some '#' := by
  rw [headingLine_eq]; rfl

theorem ne_headingLine_of_space {l : List Char} (t : Talk) (h : l.head? = some ' ') :
    l ≠ headingLine t := by
  intro he
  rw [he, headingLine_head t] at h
  simp at h

theorem speakersLine_head (u : Talk) : (speakersLine u).head? = some ' ' := by
  have h : ("  - :snake: _" : String).data = ' ' :: (" - :snake: _" : String).data := rfl
  simp [speakersLine, snakeStr, h]

theorem alarmLine_head (u : Talk) : (alarmLine u).head? = some ' ' := by
  have h : ("  - :alarm_clock:  " : String).data
      = ' ' :: (" - :alarm_clock:  " : String).data := rfl
  simp [alarmLine, alarmStr, h]

theorem descLine_head (d : String) : ((descStr d).data).head? = some ' ' := by
  have h : ("  - :clipboard:  " : String).data = ' ' :: (" - :clipboard:  " : String).data := rfl
  simp [descStr, h]

theorem entryLine_head (a : ResolvedAttachment) : (attachmentEntryLine a).head? = some ' ' := by
  have h : ("    - :paperclip: [" : String).data
      = ' ' :: ("   - :paperclip: [" : String).data := rfl
  simp [attachmentEntryLine, attachmentEntryStr, h]

theorem linkLine_head (u : Talk) : (linkLine u).head? = some ' ' := by
  have h : ("  - :link: [More info](https://pycones19.sched.com/event/" : String).data
      = ' ' :: (" - :link: [More info](https://pycones19.sched.com/event/" : String).data := rfl
  simp [linkLine, linkStr, h]

theorem countP_talkLines (u t : Talk) :
    (talkLines u).countP (fun l => l == headingLine t) =
      if optStr u.name = optStr t.name then 1 else 0 := by
  have hsn : ((speakersLine u == headingLine t) : Bool) = false :=
    beq_eq_false_iff_ne.mpr (ne_headingLine_of_space t (speakersLine_head u))
  have hal : ((alarmLine u == headingLine t) : Bool) = false :=
    beq_eq_false_iff_ne.mpr (ne_headingLine_of_space t (alarmLine_head u))
  have hdesc : (descLines u.description).countP (fun l => l == headingLine t) = 0 := by
    rw [List.countP_eq_zero]
    intro l hl
    cases hd : u.description with
    | none => rw [hd] at hl; simp [descLines] at hl
    | some d =>
      rw [hd] at hl
      by_cases hde : d = ""
      · simp [descLines, hde] at hl
      · simp only [descLines, if_neg hde, List.mem_singleton] at hl
        subst hl
        simp [beq_eq_false_iff_ne.mpr (ne_headingLine_of_space t (descLine_head d))]
  have hatt : (attachLines u.attachments).countP (fun l => l == headingLine t) = 0 := by
    rw [List.countP_eq_zero]
    intro l hl
    cases ha : u.attachments with
    | none => rw [ha] at hl; simp [attachLines] at hl
    | some la =>
      rw [ha] at hl
      by_cases hla : la.isEmpty
      · simp [attachLines, hla] at hl
      · simp only [attachLines, if_neg hla, List.mem_cons, List.mem_map] at hl
        rcases hl with hl | ⟨a, _, hl⟩
        · subst hl
          intro hgo
          exact absurd (eq_of_beq hgo) (ne_headingLine_of_space t rfl)
        · subst hl
          simp [beq_eq_false_iff_ne.mpr (ne_headingLine_of_space t (entryLine_head a))]
  have hlk : ((linkLine u == headingLine t) : Bool) = false :=
    beq_eq_false_iff_ne.mpr (ne_headingLine_of_space t (linkLine_head u))
  have hhd : ((headingLine u == headingLine t) : Bool)
      = (optStr u.name == optStr t.name) := by
    by_cases hn : optStr u.name = optStr t.name
    · simp [headingLine_inj.mpr hn, hn]
    · simp [hn, beq_eq_false_iff_ne.mpr (fun he => hn (headingLine_inj.mp he))]
  simp only [talkLines, List.countP_cons, List.countP_append, hsn, hal, hdesc, hatt, hhd,
    List.countP_nil]
  by_cases hn : optStr u.name = optStr t.name <;> simp [hn, hlk, List.countP_cons]

theorem countP_blocksLines (talks : List Talk) (t : Talk) :
    (blocksLines talks).countP (fun l => l == headingLine t) =
      talks.countP (fun u => !(speakerNames u).isEmpty && (optStr u.name == optStr t.name)) := by
  induction talks with
  | nil => rfl
  | cons u ts ih =>
    simp only [blocksLines, List.countP_append, ih, List.countP_cons]
    by_cases hsp : (speakerNames u).isEmpty
    · simp [hsp]
    · by_cases hn : optStr u.name = optStr t.name
        <;> simp [hsp, hn, countP_talkLines, Nat.add_comm]

theorem headingLine_notin_header (t : Talk) :
    ∀ l ∈ headerLines, (l == headingLine t) = false := by
  intro l hl
  have t1 : List.take 4 header1.data = ['#', ' ', 'P', 'y'] := rfl
  have t2 : List.take 4 header2.data = ['I', 't', ' ', 'c'] := rfl
  have t3 : List.take 4 header3.data = ['#', '#', ' ', 'T'] := rfl
  have tH : List.take 4 (headingLine t) = ['#', '#', '#', ' '] := by
    rw [headingLine_eq]; rfl
  simp only [headerLines, List.mem_cons] at hl
  rcases hl with h | h | h | h
  · subst h
    refine beq_eq_false_iff_ne.mpr (fun he => ?_)
    have h4 := congrArg (List.take 4) he
    rw [t1, tH] at h4
    simp at h4
  · subst h
    refine beq_eq_false_iff_ne.mpr (fun he => ?_)
    have h4 := congrArg (List.take 4) he
    rw [t2, tH] at h4
    simp at h4
  · subst h
    refine beq_eq_false_iff_ne.mpr (fun he => ?_)
    have h4 := congrArg (List.take 4) he
    rw [t3, tH] at h4
    simp at h4
  · simp at h

theorem blocksLines_append (l1 l2 : List Talk) :
    blocksLines (l1 ++ l2) = blocksLines l1 ++ blocksLines l2 := by
  induction l1 with
  | nil => rfl
  | cons u ts ih => simp [blocksLines, ih]

theorem countHeading_docLines (talks : List Talk) (fsLt : Option String) (now : String)
    (t : Talk) (hwf : ∀ u ∈ talks, TalkWF u)
    (htail : ∀ l ∈ splitNL (tailStr fsLt now).data, l ≠ headingLine t) :
    (docLines talks fsLt now).countP (fun l => l == headingLine t) =
      talks.countP (fun u => !(speakerNames u).isEmpty && (optStr u.name == optStr t.name)) := by
  rw [docLines_decomp talks fsLt now hwf, List.countP_append, List.countP_append]
  have h1 : headerLines.countP (fun l => l == headingLine t) = 0 := by
    rw [List.countP_eq_zero]
    intro l hl
    simp [headingLine_notin_header t l hl]
  have h3 : (splitNL (tailStr fsLt now).data).countP (fun l => l == headingLine t) = 0 := by
    rw [List.countP_eq_zero]
    intro l hl
    simp [htail l hl]
  rw [h1, h3, countP_blocksLines]
  omega

/-- Claim C3: in the rendered Markdown document, a talk record with an
empty speakers list contributes no heading, and a talk record with at
least one speaker contributes exactly one heading carrying the talk name,
immediately followed by the line listing all speaker names comma-joined in
their original order.  Stated for well-formed inputs: no rendered field
embeds a newline, rendered talk names are unique among speakerful talks,
the talk occurs once in the list, and neither the appended fragment nor
the footer contains the heading as one of its lines. -/
theorem claim_C3 (talks : List Talk) (fsLt : Option String) (now : String) (t : Talk)
    (ht : t ∈ talks)
    (hwf : ∀ u ∈ talks, TalkWF u)
    (htail : ∀ l ∈ splitNL (tailStr fsLt now).data, l ≠ headingLine t)
    (huniq : ∀ u ∈ talks, ¬(speakerNames u).isEmpty = true →
      optStr u.name = optStr t.name → u = t)
    (hone : talks.count t = 1) :
    ((speakerNames t).isEmpty = true →
        (docLines talks fsLt now).countP (fun l => l == headingLine t) = 0)
      ∧ (¬(speakerNames t).isEmpty = true →
        (docLines talks fsLt now).countP (fun l => l == headingLine t) = 1
          ∧ ∃ pre post,
            docLines talks fsLt now = pre ++ headingLine t :: speakersLine t :: post) := by
  constructor
  · intro hempty
    rw [countHeading_docLines talks fsLt now t hwf htail, List.countP_eq_zero]
    intro u hu hq
    rw [Bool.and_eq_true] at hq
    obtain ⟨hsp, hname⟩ := hq
    have hut : u = t := huniq u hu (by simp_all) (eq_of_beq hname)
    subst hut
    simp [hempty] at hsp
  · intro hnon
    constructor
    · rw [countHeading_docLines talks fsLt now t hwf htail]
      have hcg : talks.countP
            (fun u => !(speakerNames u).isEmpty && (optStr u.name == optStr t.name)) =
          talks.countP (fun u => u == t) := by
        apply List.countP_congr
        intro u hu
        constructor
        · intro hq
          rw [Bool.and_eq_true] at hq
          exact beq_iff_eq.mpr (huniq u hu (by simp_all) (eq_of_beq hq.2))
        · intro hq
          have hut : u = t := eq_of_beq hq
          subst hut
          simp only [Bool.and_eq_true, beq_iff_eq]
          exact ⟨by simp_all, trivial⟩
      rw [hcg, ← List.count_eq_countP]
      exact hone
    · obtain ⟨l1, l2, hsplit⟩ := List.append_of_mem ht
      subst hsplit
      rw [docLines_decomp _ fsLt now hwf, blocksLines_append]
      refine ⟨headerLines ++ blocksLines l1,
        (alarmLine t :: (descLines t.description ++ attachLines t.attachments ++ [linkLine t]))
          ++ blocksLines l2 ++ splitNL (tailStr fsLt now).data, ?_⟩
      have hne : speakerNames t ≠ [] := by simpa [List.isEmpty_iff] using hnon
      simp [blocksLines, hne, talkLines, List.append_assoc]

/-- Witness for claim C3 at a concrete schedule of one speakerful talk and
one speakerless entry. -/
theorem claim_C3_witness :
    (wTalkA ∈ [wTalkA, wTalkB]
      ∧ (∀ u ∈ [wTalkA, wTalkB], TalkWF u)
      ∧ (∀ l ∈ splitNL (tailStr none ("NOW")).data, l ≠ headingLine wTalkA)
      ∧ (∀ u ∈ [wTalkA, wTalkB], ¬(speakerNames u).isEmpty = true →
          optStr u.name = optStr wTalkA.name → u = wTalkA)
      ∧ List.count wTalkA [wTalkA, wTalkB] = 1)
    ∧ (((speakerNames wTalkA).isEmpty = true →
        (docLines [wTalkA, wTalkB] none ("NOW")).countP
          (fun l => l == headingLine wTalkA) = 0)
      ∧ (¬(speakerNames wTalkA).isEmpty = true →
        (docLines [wTalkA, wTalkB] none ("NOW")).countP
            (fun l => l == headingLine wTalkA) = 1
          ∧ ∃ pre post, docLines [wTalkA, wTalkB] none ("NOW")
              = pre ++ headingLine wTalkA :: speakersLine wTalkA :: post)) :=
  ⟨⟨by decide, by decide, by decide, by decide, by decide⟩,
    claim_C3 [wTalkA, wTalkB] none ("NOW") wTalkA (by decide) (by decide) (by decide)
      (by decide) (by decide)⟩

theorem str_ne_empty_iff {s : String} : s ≠ "" ↔ s.data ≠ [] := by
  simp [Ne, String.ext_iff]

theorem osJoin_ne_empty {a : String} (b : String) (ha : a ≠ "") : osJoin a b ≠ "" := by
  rw [osJoin]
  rw [str_ne_empty_iff] at ha ⊢
  split_ifs with h1 h2
  · intro hc
    rw [hc] at h1
    simp at h1
  · rw [String.data_append]
    simp [ha]
  · rw [String.data_append, String.data_append]
    simp [ha]

theorem osJoin_slash {a : String} (b : String) (ha : a ≠ "") :
    ('/' : Char) ∈ (osJoin a b).data := by
  rw [osJoin]
  rw [str_ne_empty_iff] at ha
  split_ifs with h1 h2
  · exact List.mem_of_mem_head? (h1 ▸ rfl)
  · rcases h2 with h2 | h2
    · exact absurd h2 ha
    · rw [String.data_append]
      exact List.mem_append_of_mem_left _ (List.mem_of_getLast?_eq_some h2)
  · rw [String.data_append, String.data_append]
    refine List.mem_append_of_mem_left _ (List.mem_append_of_mem_right _ ?_)
    exact List.mem_cons_self _ _

theorem downloadOne_ok {net : Net} {dest : String} {a : RawAttachment}
    {ev : List Event} {res : ResolvedAttachment}
    (h : downloadOne net dest a = (ev, .ok res)) :
    a.name = some res.file_name
      ∧ res.file_path =
        osJoin dest (slugify (splitext res.file_name).1 ++ (splitext res.file_name).2)
      ∧ ∃ body, ev = [.writeFile res.file_path body] := by
  cases hn : a.name with
  | none => simp [downloadOne, hn] at h
  | some fn =>
    cases hp : a.path with
    | none => simp [downloadOne, hn, hp] at h
    | some u =>
      cases hf : net.fetchFile u with
      | err e => simp [downloadOne, hn, hp, hf] at h
      | ok body =>
        simp only [downloadOne, hn, hp, hf] at h
        obtain ⟨hev, hres⟩ := Prod.mk.inj h
        obtain rfl := (PResult.ok.inj hres).symm
        exact ⟨rfl, rfl, body, hev.symm⟩

theorem downloadAttachments_ok (net : Net) (dest : String) :
    ∀ raws evs l, downloadAttachments net dest raws = (evs, .ok l) →
      l.length = raws.length
        ∧ ∀ i r2, l.get? i = some r2 →
          ∃ r, raws.get? i = some r ∧ r.name = some r2.file_name
            ∧ r2.file_path =
              osJoin dest (slugify (splitext r2.file_name).1 ++ (splitext r2.file_name).2) := by
  intro raws
  induction raws with
  | nil =>
    intro evs l h
    rw [downloadAttachments] at h
    obtain ⟨hev, hres⟩ := Prod.mk.inj h
    obtain rfl := (PResult.ok.inj hres)
    exact ⟨rfl, by intro i r2 hr; simp at hr⟩
  | cons a rest ih =>
    intro evs l h
    rw [downloadAttachments] at h
    rcases hone : downloadOne net dest a with ⟨ev1, r1⟩
    rw [hone] at h
    cases r1 with
    | err e => simp at h
    | ok res =>
      rcases hrest : downloadAttachments net dest rest with ⟨evs2, r2⟩
      rw [hrest] at h
      cases r2 with
      | err e => simp at h
      | ok l2 =>
        obtain ⟨hev, hres⟩ := Prod.mk.inj h
        obtain rfl := (PResult.ok.inj hres)
        obtain ⟨h1, h2, _⟩ := downloadOne_ok hone
        obtain ⟨hlen, hidx⟩ := ih evs2 l2 hrest
        refine ⟨by simp [hlen], ?_⟩
        intro i x hx
        cases i with
        | zero =>
          simp only [List.get?] at hx
          obtain rfl := Option.some.inj hx
          exact ⟨a, rfl, h1, h2⟩
        | succ n =>
          simp only [List.get?] at hx ⊢
          exact hidx n x hx

theorem downloadAttachments_mem (net : Net) (dest : String) (raws : List RawAttachment)
    {evs : List Event} {l : List ResolvedAttachment}
    (h : downloadAttachments net dest raws = (evs, .ok l)) :
    ∀ x ∈ l, x.file_path =
      osJoin dest (slugify (splitext x.file_name).1 ++ (splitext x.file_name).2) := by
  intro x hx
  obtain ⟨i, hi⟩ := List.mem_iff_get?.mp hx
  obtain ⟨r, _, _, hp⟩ := (downloadAttachments_ok net dest raws evs l h).2 i x hi
  exact hp

theorem downloadAttachments_events (net : Net) (dest : String) :
    ∀ raws evs r, downloadAttachments net dest raws = (evs, r) →
      ∀ e ∈ evs, ∃ fn body, e = .writeFile (osJoin dest fn) body := by
  intro raws
  induction raws with
  | nil =>
    intro evs r h e he
    rw [downloadAttachments] at h
    obtain ⟨hev, _⟩ := Prod.mk.inj h
    rw [← hev] at he
    simp at he
  | cons a rest ih =>
    intro evs r h e he
    rw [downloadAttachments] at h
    rcases hone : downloadOne net dest a with ⟨ev1, r1⟩
    rw [hone] at h
    have hev1 : ∀ e2 ∈ ev1, ∃ fn body, e2 = Event.writeFile (osJoin dest fn) body := by
      intro e2 he2
      cases hn : a.name with
      | none =>
        simp only [downloadOne, hn] at hone
        obtain ⟨hev, _⟩ := Prod.mk.inj hone
        rw [← hev] at he2
        simp at he2
      | some fn =>
        cases hp : a.path with
        | none =>
          simp only [downloadOne, hn, hp] at hone
          obtain ⟨hev, _⟩ := Prod.mk.inj hone
          rw [← hev] at he2
          simp at he2
        | some u =>
          cases hf : net.fetchFile u with
          | err e3 =>
            simp only [downloadOne, hn, hp, hf] at hone
            obtain ⟨hev, _⟩ := Prod.mk.inj hone
            rw [← hev] at he2
            simp at he2
          | ok body =>
            simp only [downloadOne, hn, hp, hf] at hone
            obtain ⟨hev, _⟩ := Prod.mk.inj hone
            rw [← hev] at he2
            simp only [List.mem_singleton] at he2
            exact ⟨slugify (splitext fn).1 ++ (splitext fn).2, body, he2⟩
    cases r1 with
    | err e1 =>
      obtain ⟨hev, _⟩ := Prod.mk.inj h
      rw [← hev] at he
      exact hev1 e he
    | ok res =>
      rcases hrest : downloadAttachments net dest rest with ⟨evs2, r2⟩
      rw [hrest] at h
      have hev2 : e ∈ ev1 ++ evs2 → ∃ fn body, e = Event.writeFile (osJoin dest fn) body := by
        intro hin
        rcases List.mem_append.mp hin with hin | hin
        · exact hev1 e hin
        · exact ih evs2 r2 hrest e hin
      cases r2 with
      | err e2 =>
        obtain ⟨hev, _⟩ := Prod.mk.inj h
        rw [← hev] at he
        exact hev2 he
      | ok l2 =>
        obtain ⟨hev, _⟩ := Prod.mk.inj h
        rw [← hev] at he
        exact hev2 he

theorem slugWords_single (c : Char) :
    slugWords [c] = if isSlugKeep c then [[c]] else [] := rfl

theorem slugWords_cons_cons (c e : Char) (rest2 : List Char) :
    slugWords (c :: e :: rest2) =
      if isSlugKeep c then
        (if isSlugKeep e then
          (c :: (slugWords (e :: rest2)).headD []) :: (slugWords (e :: rest2)).tail
         else [c] :: slugWords (e :: rest2))
      else slugWords (e :: rest2) := rfl

theorem slugWords_chars : ∀ l : List Char, ∀ w ∈ slugWords l, ∀ c ∈ w, isSlugKeep c := by
  intro l
  induction l with
  | nil => intro w hw; simp [slugWords] at hw
  | cons c rest ih =>
    intro w hw d hd
    by_cases hc : isSlugKeep c
    · cases rest with
      | nil =>
        rw [slugWords_single, if_pos hc] at hw
        simp only [List.mem_singleton] at hw
        subst hw
        simp only [List.mem_singleton] at hd
        subst hd
        exact hc
      | cons e rest2 =>
        rw [slugWords_cons_cons, if_pos hc] at hw
        by_cases he : isSlugKeep e
        · rw [if_pos he] at hw
          rcases List.mem_cons.mp hw with hw | hw
          · subst hw
            rcases List.mem_cons.mp hd with hd | hd
            · subst hd; exact hc
            · cases hsw : slugWords (e :: rest2) with
              | nil => rw [hsw] at hd; simp at hd
              | cons w0 ws0 =>
                rw [hsw] at hd
                exact ih w0 (hsw ▸ List.mem_cons_self w0 ws0) d hd
          · exact ih w (List.mem_of_mem_tail hw) d hd
        · rw [if_neg he] at hw
          rcases List.mem_cons.mp hw with hw | hw
          · subst hw
            simp only [List.mem_singleton] at hd
            subst hd
            exact hc
          · exact ih w hw d hd
    · cases rest with
      | nil =>
        rw [slugWords_single, if_neg hc] at hw
        simp at hw
      | cons e rest2 =>
        rw [slugWords_cons_cons, if_neg hc] at hw
        exact ih w hw d hd

theorem hyphenJoin_cons_cons (w w2 : List Char) (ws2 : List (List Char)) :
    hyphenJoin (w :: w2 :: ws2) = w ++ '-' :: hyphenJoin (w2 :: ws2) := rfl

theorem hyphenJoin_chars : ∀ ws : List (List Char),
    (∀ w ∈ ws, ∀ c ∈ w, isSlugKeep c) → ∀ c ∈ hyphenJoin ws, isSlugKeep c ∨ c = '-' := by
  intro ws
  induction ws with
  | nil => intro _ c hc; simp [hyphenJoin] at hc
  | cons w ws ih =>
    intro h c hc
    cases ws with
    | nil =>
      exact Or.inl (h w (List.mem_cons_self w []) c hc)
    | cons w2 ws2 =>
      rw [hyphenJoin_cons_cons] at hc
      rcases List.mem_append.mp hc with hc | hc
      · exact Or.inl (h w (List.mem_cons_self _ _) c hc)
      · rcases List.mem_cons.mp hc with hc | hc
        · exact Or.inr hc
        · exact ih (fun w3 hw3 => h w3 (List.mem_cons_of_mem _ hw3)) c hc

theorem slugify_chars (s : String) : ∀ c ∈ (slugify s).data, isSlugKeep c ∨ c = '-' := by
  intro c hc
  exact hyphenJoin_chars _ (slugWords_chars _) c hc

theorem slugify_no_slash (s : String) : ('/' : Char) ∉ (slugify s).data := by
  intro h
  rcases slugify_chars s '/' h with h2 | h2
  · exact absurd h2 (by decide)
  · exact absurd h2 (by decide)

theorem splitext_ext_no_slash (p : String) : ('/' : Char) ∉ ((splitext p).2).data := by
  rw [splitext]
  simp only [apply_ite (fun q : String × String => q.2)]
  split_ifs with hcond
  · intro hm
    simp only [List.mem_cons] at hm
    rcases hm with hm | hm
    · exact absurd hm.symm (by decide)
    · rw [List.mem_reverse] at hm
      have h1 := List.takeWhile_subset (fun c => c != '.') hm
      have h2 := List.mem_takeWhile_imp h1
      simp at h2
  · simp

theorem head?_ne_slash_of_no_slash {s : String} (h : ('/' : Char) ∉ s.data) :
    s.data.head? ≠ some ('/' : Char) :=
  fun hc => h (List.mem_of_mem_head? hc)

theorem slug_getLast?_ne_slash (s : String) :
    (slugify s).data.getLast? ≠ some ('/' : Char) :=
  fun hc => slugify_no_slash s (List.mem_of_getLast?_eq_some hc)

theorem osJoin_expand {a b : String} (ha : a.data ≠ [])
    (ha2 : a.data.getLast? ≠ some ('/' : Char))
    (hb : b.data.head? ≠ some ('/' : Char)) : osJoin a b = a ++ ("/") ++ b := by
  rw [osJoin, if_neg hb, if_neg]
  intro h
  rcases h with h | h
  · exact ha h
  · exact ha2 h

theorem processTalk_ok {net : Net} {od : String} {t : Talk} {evs : List Event} {t2 : Talk}
    (h : processTalk net od t = (evs, .ok t2)) (hf : ¬(t.files.getD []).isEmpty) :
    ∃ evs2 l,
      downloadAttachments net (osJoin od (slugify (optStr t.name))) (t.files.getD [])
          = (evs2, .ok l)
        ∧ t2.attachments = some l := by
  rw [processTalk, if_neg hf] at h
  simp only [] at h
  rcases hda : downloadAttachments net (osJoin od (slugify (optStr t.name)))
      (t.files.getD []) with ⟨evs2, r2⟩
  rw [hda] at h
  cases r2 with
  | err e => simp at h
  | ok l =>
    obtain ⟨hev, hres⟩ := Prod.mk.inj h
    obtain rfl := (PResult.ok.inj hres).symm
    exact ⟨evs2, l, rfl, rfl⟩

theorem processTalk_events (net : Net) (od : String) (t : Talk)
    {ev1 : List Event} {r1 : PResult Talk} (h : processTalk net od t = (ev1, r1)) :
    ∀ p body, Event.writeFile p body ∈ ev1 →
      ∃ fn, p = osJoin (osJoin od (slugify (optStr t.name))) fn := by
  intro p body hp
  by_cases hf : (t.files.getD []).isEmpty
  · rw [processTalk, if_pos hf] at h
    obtain ⟨hev, _⟩ := Prod.mk.inj h
    rw [← hev] at hp
    simp at hp
  · rw [processTalk, if_neg hf] at h
    simp only [] at h
    rcases hda : downloadAttachments net (osJoin od (slugify (optStr t.name)))
        (t.files.getD []) with ⟨evs2, r2⟩
    rw [hda] at h
    have hsub : Event.writeFile p body ∈ Event.mkdir (osJoin od (slugify (optStr t.name))) :: evs2 →
        ∃ fn, p = osJoin (osJoin od (slugify (optStr t.name))) fn := by
      intro hin
      rcases List.mem_cons.mp hin with hin | hin
      · simp at hin
      · obtain ⟨fn, body2, hfn⟩ :=
          downloadAttachments_events net (osJoin od (slugify (optStr t.name)))
            (t.files.getD []) evs2 r2 hda _ hin
        obtain ⟨hp2, _⟩ := Event.writeFile.inj hfn
        exact ⟨fn, hp2⟩
    cases r2 with
    | err e =>
      obtain ⟨hev, _⟩ := Prod.mk.inj h
      rw [← hev] at hp
      exact hsub hp
    | ok l =>
      obtain ⟨hev, _⟩ := Prod.mk.inj h
      rw [← hev] at hp
      exact hsub hp

theorem processTalks_events (net : Net) (od : String) :
    ∀ ts evs r, processTalks net od ts = (evs, r) →
      ∀ p body, Event.writeFile p body ∈ evs → ∃ x fn, p = osJoin (osJoin od x) fn := by
  intro ts
  induction ts with
  | nil =>
    intro evs r h p body hp
    rw [processTalks] at h
    obtain ⟨hev, _⟩ := Prod.mk.inj h
    rw [← hev] at hp
    simp at hp
  | cons t ts ih =>
    intro evs r h p body hp
    rw [processTalks] at h
    rcases hpt : processTalk net od t with ⟨ev1, r1⟩
    rw [hpt] at h
    cases r1 with
    | err e =>
      obtain ⟨hev, _⟩ := Prod.mk.inj h
      rw [← hev] at hp
      obtain ⟨fn, hfn⟩ := processTalk_events net od t hpt p body hp
      exact ⟨slugify (optStr t.name), fn, hfn⟩
    | ok t2 =>
      rcases hrest : processTalks net od ts with ⟨evs2, r2⟩
      rw [hrest] at h
      have hsub : Event.writeFile p body ∈ ev1 ++ evs2 →
          ∃ x fn, p = osJoin (osJoin od x) fn := by
        intro hin
        rcases List.mem_append.mp hin with hin | hin
        · obtain ⟨fn, hfn⟩ := processTalk_events net od t hpt p body hin
          exact ⟨slugify (optStr t.name), fn, hfn⟩
        · exact ih evs2 r2 hrest p body hin
      cases r2 with
      | err e =>
        obtain ⟨hev, _⟩ := Prod.mk.inj h
        rw [← hev] at hp
        exact hsub hp
      | ok ts2 =>
        obtain ⟨hev, _⟩ := Prod.mk.inj h
        rw [← hev] at hp
        exact hsub hp

/-- Claim C4: a successful download step over N attachment descriptors
yields N resolved records, in the same relative order, the i-th carrying
the i-th original name; and rendering the attachment section of such a
talk yields exactly those N entries as lines, in order, each an entry
whose display text is the file name and whose link target is the locally
computed path (not the remote URL). -/
theorem claim_C4 (net : Net) (dest : String) (raws : List RawAttachment)
    (evs : List Event) (l : List ResolvedAttachment)
    (hrun : downloadAttachments net dest raws = (evs, .ok l))
    (hwf : ∀ a ∈ l, noNL a.file_name ∧ noNL a.file_path) :
    l.length = raws.length
      ∧ (∀ i r2, l.get? i = some r2 →
          ∃ r, raws.get? i = some r ∧ r.name = some r2.file_name
            ∧ r2.file_path = osJoin dest
                (slugify (splitext r2.file_name).1 ++ (splitext r2.file_name).2))
      ∧ (¬l.isEmpty = true →
          splitNL (attachPart (some l)).data =
            ("  - :open_file_folder: Attachments" : String).data
              :: (l.map attachmentEntryLine ++ [[]])) := by
  obtain ⟨h1, h2⟩ := downloadAttachments_ok net dest raws evs l hrun
  refine ⟨h1, h2, ?_⟩
  intro hne
  have h3 := fullLines_attachPart (some l) (by simpa using hwf)
  rw [FullLines] at h3
  rw [h3]
  simp [attachLines, hne]

/-- Witness for claim C4 at a concrete pair of descriptors. -/
theorem claim_C4_witness :
    (downloadAttachments wNet ("files/my-talk") [wRaw, wRaw2]
        = ([.writeFile ("files/my-talk/a-b.pdf") ("BODY"),
            .writeFile ("files/my-talk/notes.txt") ("BODY")], .ok [wAtt, wAtt2])
      ∧ (∀ a ∈ [wAtt, wAtt2], noNL a.file_name ∧ noNL a.file_path))
    ∧ ([wAtt, wAtt2].length = [wRaw, wRaw2].length
      ∧ (∀ i r2, [wAtt, wAtt2].get? i = some r2 →
          ∃ r, [wRaw, wRaw2].get? i = some r ∧ r.name = some r2.file_name
            ∧ r2.file_path = osJoin ("files/my-talk")
                (slugify (splitext r2.file_name).1 ++ (splitext r2.file_name).2))
      ∧ (¬([wAtt, wAtt2] : List ResolvedAttachment).isEmpty = true →
          splitNL (attachPart (some [wAtt, wAtt2])).data =
            ("  - :open_file_folder: Attachments" : String).data
              :: ([wAtt, wAtt2].map attachmentEntryLine ++ [[]]))) :=
  ⟨⟨by decide, by decide⟩,
    claim_C4 wNet ("files/my-talk") [wRaw, wRaw2]
      [.writeFile ("files/my-talk/a-b.pdf") ("BODY"),
       .writeFile ("files/my-talk/notes.txt") ("BODY")]
      [wAtt, wAtt2] (by decide) (by decide)⟩

/-- Claim C5: every attachment resolved while processing a talk records a
local path of the form `output_dir/<slug of talk name>/<slug of base>.<ext>`:
it lies under the per-talk directory and its final component is the
slugified base of the original attachment name rejoined with the original
extension.  Stated for an output directory that is nonempty and has no
trailing separator, and a talk whose name slug is nonempty. -/
theorem claim_C5 (net : Net) (od : String) (t : Talk) (evs : List Event) (t2 : Talk)
    (hrun : processTalk net od t = (evs, .ok t2))
    (hfiles : ¬(t.files.getD []).isEmpty = true)
    (hod : od ≠ "") (hod2 : od.data.getLast? ≠ some ('/' : Char))
    (hslug : slugify (optStr t.name) ≠ "") :
    ∀ l, t2.attachments = some l → ∀ x ∈ l,
      x.file_path = od ++ ("/") ++ slugify (optStr t.name) ++ ("/")
          ++ (slugify (splitext x.file_name).1 ++ (splitext x.file_name).2)
        ∧ ('/' : Char) ∉
          (slugify (splitext x.file_name).1 ++ (splitext x.file_name).2).data := by
  intro l hl x hx
  obtain ⟨evs2, l2, hda, hatt⟩ := processTalk_ok hrun hfiles
  have hll : l = l2 := Option.some.inj (hl.symm.trans hatt)
  subst hll
  have hmem := downloadAttachments_mem net _ _ hda x hx
  have hno_fname : ('/' : Char) ∉
      (slugify (splitext x.file_name).1 ++ (splitext x.file_name).2).data := by
    rw [String.data_append]
    intro hm
    rcases List.mem_append.mp hm with hm | hm
    · exact slugify_no_slash _ hm
    · exact splitext_ext_no_slash _ hm
  refine ⟨?_, hno_fname⟩
  rw [hmem]
  have e1 : osJoin od (slugify (optStr t.name)) = od ++ ("/") ++ slugify (optStr t.name) :=
    osJoin_expand (str_ne_empty_iff.mp hod) hod2
      (head?_ne_slash_of_no_slash (slugify_no_slash _))
  rw [e1]
  have hslugd : (slugify (optStr t.name)).data ≠ [] := str_ne_empty_iff.mp hslug
  have hlast : (od ++ ("/") ++ slugify (optStr t.name)).data.getLast? ≠ some ('/' : Char) := by
    rw [String.data_append, List.getLast?_append_of_ne_nil _ hslugd]
    exact slug_getLast?_ne_slash _
  have hne : (od ++ ("/") ++ slugify (optStr t.name)) ≠ "" := by
    rw [str_ne_empty_iff, String.data_append]
    simp [hslugd]
  rw [osJoin_expand (str_ne_empty_iff.mp hne) hlast (head?_ne_slash_of_no_slash hno_fname)]

/-- Witness for claim C5 at a concrete talk and attachment. -/
theorem claim_C5_witness :
    (processTalk wNet ("files") wTalkC
        = ([.mkdir ("files/my-talk"), .writeFile ("files/my-talk/a-b.pdf") ("BODY")],
           .ok wTalkC2)
      ∧ ¬(wTalkC.files.getD []).isEmpty = true
      ∧ ("files" : String) ≠ ""
      ∧ ("files" : String).data.getLast? ≠ some ('/' : Char)
      ∧ slugify (optStr wTalkC.name) ≠ "")
    ∧ (wAtt.file_path = ("files" : String) ++ ("/") ++ slugify (optStr wTalkC.name) ++ ("/")
        ++ (slugify (splitext wAtt.file_name).1 ++ (splitext wAtt.file_name).2)
      ∧ ('/' : Char) ∉
        (slugify (splitext wAtt.file_name).1 ++ (splitext wAtt.file_name).2).data) :=
  ⟨⟨by decide, by decide, by decide, by decide, by decide⟩,
    claim_C5 wNet ("files") wTalkC
      [.mkdir ("files/my-talk"), .writeFile ("files/my-talk/a-b.pdf") ("BODY")]
      wTalkC2 (by decide) (by decide) (by decide) (by decide)
      (by decide) [wAtt] rfl wAtt (by decide)⟩

/-- Claim C9: when the constructor (fetch or download stage) fails, the
whole run performs no write at all to the output file `README.md`: the
export step runs only after a fully successful construction.  Stated for a
nonempty output directory (the default is `files`). -/
theorem claim_C9 (net : Net) (jl : String → Option (List Talk)) (env : Env)
    (fsLt : Option String) (now : String) (co ck : Option String) (e : PyError)
    (hfail : (schedTalksInit net jl env (mainKwargs co ck)).2 = .err e)
    (hod : (initSettings env (mainKwargs co ck)).output_dir ≠ "") :
    (mainRun net jl env fsLt now co ck).1.countP (writesTo ("README.md")) = 0 := by
  rw [mainRun]
  rcases hinit : schedTalksInit net jl env (mainKwargs co ck) with ⟨evs, r⟩
  rw [hinit] at hfail
  cases r with
  | ok st => simp at hfail
  | err e2 =>
    show evs.countP (writesTo ("README.md")) = 0
    rw [schedTalksInit] at hinit
    rcases hget : getTalks net jl (initSettings env (mainKwargs co ck)) with ⟨evs0, r0⟩
    rw [hget] at hinit
    cases r0 with
    | ok ts => simp at hinit
    | err e0 =>
      obtain ⟨hev, _⟩ := Prod.mk.inj hinit
      rw [← hev]
      rw [List.countP_eq_zero]
      intro ev hev2
      rcases List.mem_cons.mp hev2 with hin | hin
      · subst hin; simp [writesTo]
      · rw [getTalks] at hget
        split at hget
        · split at hget
          · obtain ⟨hev0, _⟩ := Prod.mk.inj hget
            rw [← hev0] at hin
            simp at hin
          · cases ev with
            | mkdir d => simp [writesTo]
            | writeFile p body =>
              rename_i ts _
              obtain ⟨x, fn, hp⟩ :=
                processTalks_events net _ ts evs0 _ hget p body hin
              have hslash : ('/' : Char) ∈ p.data :=
                hp ▸ osJoin_slash _ (osJoin_ne_empty _ hod)
              simp only [writesTo]
              intro hb
              rw [eq_of_beq hb] at hslash
              exact absurd hslash (by decide)
        · obtain ⟨hev0, _⟩ := Prod.mk.inj hget
          rw [← hev0] at hin
          simp at hin

/-- Witness for claim C9 at a concrete failing network. -/
theorem claim_C9_witness :
    ((schedTalksInit wNetDown wJlNone ⟨none, none⟩ (mainKwargs none none)).2
        = .err (.attributeError ("json"))
      ∧ (initSettings ⟨none, none⟩ (mainKwargs none none)).output_dir ≠ "")
    ∧ (mainRun wNetDown wJlNone ⟨none, none⟩ none ("NOW") none none).1.countP
        (writesTo ("README.md")) = 0 :=
  ⟨⟨by decide, by decide⟩,
    claim_C9 wNetDown wJlNone ⟨none, none⟩ none ("NOW") none none
      (.attributeError ("json")) (by decide) (by decide)⟩

/-- Counterexample to claim C1 as stated: with a falsy schedule response
the fetch does not silently produce an empty talk list; reading the
never-assigned `json` slot raises an AttributeError, even with a parser
that would succeed. -/
theorem claim_C1_counterexample :
    getTalks wNetDown wJlEmpty ⟨"files", none⟩ = ([], .err (.attributeError ("json")))
      ∧ (getTalks wNetDown wJlEmpty ⟨"files", none⟩).2 ≠ .ok [] := by
  exact ⟨rfl, by decide⟩

/-- Claim C1 as amended: if the schedule response is falsy, the fetch
raises an AttributeError for the never-assigned `json` slot and the run
aborts with no talks produced; no talk list, empty or not, is returned. -/
theorem claim_C1_amended (net : Net) (jl : String → Option (List Talk)) (s : Settings)
    (h : (net.scheduleGet (schedUrl s.api_key)).truthy = false) :
    getTalks net jl s = ([], .err (.attributeError ("json"))) := by
  rw [getTalks]
  simp [h]

/-- Witness for the amended claim C1 at a concrete falsy network. -/
theorem claim_C1_amended_witness :
    ((wNetDown.scheduleGet (schedUrl (Settings.mk ("files") none).api_key)).truthy = false)
      ∧ getTalks wNetDown wJlEmpty ⟨"files", none⟩ = ([], .err (.attributeError ("json"))) :=
  ⟨by decide, claim_C1_amended wNetDown wJlEmpty ⟨"files", none⟩ (by decide)⟩

/-- Claim C2: a truthy schedule response whose body does not parse as JSON
makes the fetch raise a fatal exception whose message includes the raw
response body as a suffix, and the whole run aborts: the main run ends in
that error having performed only the output-directory creation. -/
theorem claim_C2 (net : Net) (jl : String → Option (List Talk)) (env : Env)
    (fsLt : Option String) (now : String) (co ck : Option String)
    (h : ∀ u, (net.scheduleGet u).truthy = true ∧ jl ((net.scheduleGet u).content) = none) :
    (∀ s : Settings, getTalks net jl s =
        ([], .err (.exception (parseErrMsg ((net.scheduleGet (schedUrl s.api_key)).content)))))
      ∧ (∃ pre, ∀ body : String, parseErrMsg body = pre ++ body)
      ∧ (mainRun net jl env fsLt now co ck).2 =
          .err (.exception (parseErrMsg
            ((net.scheduleGet (schedUrl (mainSettings env co ck).api_key)).content)))
      ∧ (mainRun net jl env fsLt now co ck).1 =
          [Event.mkdir (mainSettings env co ck).output_dir] := by
  have hone : ∀ s : Settings, getTalks net jl s =
      ([], .err (.exception (parseErrMsg ((net.scheduleGet (schedUrl s.api_key)).content)))) := by
    intro s
    rw [getTalks]
    simp [(h (schedUrl s.api_key)).1, (h (schedUrl s.api_key)).2]
  refine ⟨hone,
    ⟨"Sched Talks can" ++ sq ++ "t be correctly retrieved: " ++ sq, fun body => by
      apply String.ext
      simp [parseErrMsg, List.append_assoc]⟩, ?_, ?_⟩
  · rw [mainRun, schedTalksInit, hone]
    rfl
  · rw [mainRun, schedTalksInit, hone]
    rfl

/-- Witness for claim C2 at a concrete 200-with-garbage network. -/
theorem claim_C2_witness :
    getTalks wNetBad wJlNone ⟨"files", none⟩
        = ([], .err (.exception (parseErrMsg ("not json"))))
      ∧ (mainRun wNetBad wJlNone ⟨none, none⟩ none ("NOW") none none).2
        = .err (.exception (parseErrMsg ("not json"))) := by
  have hc := claim_C2 wNetBad wJlNone ⟨none, none⟩ none ("NOW") none none
    (fun u => ⟨rfl, rfl⟩)
  exact ⟨hc.1 ⟨"files", none⟩, hc.2.2.1⟩

/-- Claim C6: the resolved settings layer the sources with precedence
CLI flag over SCHED_API_KEY over SCHED_KEY over nothing for the API key
(a given empty token counts as absent, per the falsy check of the
script), and CLI flag over the literal default `files` for the output
directory. -/
theorem claim_C6 (env : Env) (co ck : Option String) :
    ((∀ k, ck = some k → k ≠ "" → (mainSettings env co ck).api_key = some k)
      ∧ (∀ v, (ck = none ∨ ck = some "") → env.SCHED_API_KEY = some v →
          (mainSettings env co ck).api_key = some v)
      ∧ (∀ w, (ck = none ∨ ck = some "") → env.SCHED_API_KEY = none →
          env.SCHED_KEY = some w → (mainSettings env co ck).api_key = some w)
      ∧ ((ck = none ∨ ck = some "") → env.SCHED_API_KEY = none → env.SCHED_KEY = none →
          (mainSettings env co ck).api_key = none))
      ∧ ((∀ d, co = some d → (mainSettings env co ck).output_dir = d)
        ∧ (co = none → (mainSettings env co ck).output_dir = "files")) := by
  refine ⟨⟨?_, ?_, ?_, ?_⟩, ?_, ?_⟩
  · intro k hk hne
    subst hk
    simp [mainSettings, initSettings, mainKwargs, hne]
  · intro v hck hv
    rcases hck with rfl | rfl <;>
      simp [mainSettings, initSettings, mainKwargs, envApiKey, hv]
  · intro w hck hv hw
    rcases hck with rfl | rfl <;>
      simp [mainSettings, initSettings, mainKwargs, envApiKey, hv, hw]
  · intro hck hv hw
    rcases hck with rfl | rfl <;>
      simp [mainSettings, initSettings, mainKwargs, envApiKey, hv, hw]
  · intro d hd
    subst hd
    simp [mainSettings, initSettings, mainKwargs]
  · intro hd
    subst hd
    simp [mainSettings, initSettings, mainKwargs]

/-- Witness for claim C6: one concrete resolution per layer. -/
theorem claim_C6_witness :
    (mainSettings ⟨some "P", some "S"⟩ (some "out") (some "tok")).api_key = some "tok"
      ∧ (mainSettings ⟨some "P", some "S"⟩ none none).api_key = some "P"
      ∧ (mainSettings ⟨none, some "S"⟩ none none).api_key = some "S"
      ∧ (mainSettings ⟨none, none⟩ none none).api_key = none
      ∧ (mainSettings ⟨none, none⟩ (some "out") none).output_dir = "out"
      ∧ (mainSettings ⟨none, none⟩ none none).output_dir = "files" :=
  ⟨(claim_C6 ⟨some "P", some "S"⟩ (some "out") (some "tok")).1.1 "tok" rfl (by decide),
    (claim_C6 ⟨some "P", some "S"⟩ none none).1.2.1 "P" (Or.inl rfl) rfl,
    (claim_C6 ⟨none, some "S"⟩ none none).1.2.2.1 "S" (Or.inl rfl) rfl rfl,
    (claim_C6 ⟨none, none⟩ none none).1.2.2.2 (Or.inl rfl) rfl rfl,
    (claim_C6 ⟨none, none⟩ (some "out") none).2.1 "out" rfl,
    (claim_C6 ⟨none, none⟩ none none).2.2 rfl⟩

/-- Claim C7: a talk with a truthy description renders it on the clipboard
line with every newline and carriage-return character removed, not
replaced; the boundary input of the spec renders as `line1line2`. -/
theorem claim_C7 (t : Talk) (d : String) (hd : t.description = some d) (hne : d ≠ "") :
    (∃ pre post, talkMd t = pre ++ ("  - :clipboard:  " ++ stripNL d ++ ("\n")) ++ post)
      ∧ (∀ c ∈ (stripNL d).data, c ≠ '\n' ∧ c ≠ '\r')
      ∧ stripNL ("line1\nline2\r\n") = "line1line2" := by
  refine ⟨⟨headingStr t ++ ("\n") ++ snakeStr t ++ ("\n") ++ alarmStr t ++ ("\n"),
    attachPart t.attachments ++ linkStr t, ?_⟩, ?_, by decide⟩
  · rw [talkMd, hd, descPart, if_neg hne, descStr]
    apply String.ext
    simp [List.append_assoc]
  · intro c hc
    simp only [stripNL, removeChar, List.mem_filter, decide_eq_true_eq] at hc
    exact ⟨hc.1.2, hc.2⟩

/-- Witness for claim C7 at the boundary description of the spec. -/
theorem claim_C7_witness :
    (wTalkD.description = some "line1\nline2\r\n" ∧ ("line1\nline2\r\n" : String) ≠ "")
      ∧ ((∃ pre post, talkMd wTalkD
            = pre ++ ("  - :clipboard:  " ++ stripNL ("line1\nline2\r\n") ++ ("\n")) ++ post)
        ∧ (∀ c ∈ (stripNL ("line1\nline2\r\n")).data, c ≠ '\n' ∧ c ≠ '\r')
        ∧ stripNL ("line1\nline2\r\n") = "line1line2") :=
  ⟨⟨rfl, by decide⟩, claim_C7 wTalkD "line1\nline2\r\n" rfl (by decide)⟩

/-- Counterexample to claim C8 as stated: a present and readable but empty
fragment file appends nothing at all; the rendered document equals the
read-skipped document and is not the document with a blank line and the
empty contents appended. -/
theorem claim_C8_counterexample :
    ltContent (some "") = ""
      ∧ asMd [] (some "") ("T") = asMd [] none ("T")
      ∧ asMd [] (some "") ("T")
          ≠ headerStr ++ talksBody [] ++ ("\n" ++ "") ++ footerStr ("T") := by
  exact ⟨rfl, rfl, by decide⟩

/-- Claim C8 as amended: a present, readable and nonempty fragment is
appended verbatim after a blank line; an absent, unreadable or empty
fragment appends nothing, and the document is byte-identical to a run in
which the read is skipped. -/
theorem claim_C8_amended (talks : List Talk) (now : String) :
    (∀ c : String, c ≠ "" → asMd talks (some c) now
        = headerStr ++ talksBody talks ++ ("\n" ++ c) ++ footerStr now)
      ∧ asMd talks none now = asMdReadSkipped talks now
      ∧ asMd talks (some "") now = asMdReadSkipped talks now := by
  refine ⟨?_, ?_, ?_⟩
  · intro c hc
    rw [asMd, ltPart]
    have hl : ltContent (some c) = c := rfl
    rw [hl, if_neg hc]
  · apply String.ext
    simp [asMd, asMdReadSkipped, ltPart, ltContent]
  · apply String.ext
    simp [asMd, asMdReadSkipped, ltPart, ltContent]

/-- Witness for the amended claim C8 at a concrete nonempty fragment. -/
theorem claim_C8_amended_witness :
    (("LT" : String) ≠ ""
      ∧ asMd [] (some "LT") ("T")
          = headerStr ++ talksBody [] ++ ("\n" ++ "LT") ++ footerStr ("T"))
      ∧ asMd [] none ("T") = asMdReadSkipped [] ("T") :=
  ⟨⟨by decide, (claim_C8_amended [] ("T")).1 "LT" (by decide)⟩,
    (claim_C8_amended [] ("T")).2.1⟩

/-- Claim C10: a speaker mapping without a `name` key contributes the
literal `Unknown` at its position of the speaker list, still counts toward
the talk having at least one speaker, so the talk is rendered with its
block containing the comma-joined speaker line. -/
theorem claim_C10 (t : Talk) (sps : List Speaker) (rest : List Talk) (i : Nat)
    (hsp : t.speakers = some sps) (hi : i < sps.length)
    (hname : (sps.get ⟨i, hi⟩).name = none) :
    (speakerNames t).get? i = some ("Unknown")
      ∧ ("Unknown" : String) ∈ speakerNames t
      ∧ ¬(speakerNames t).isEmpty = true
      ∧ talksBody (t :: rest) = talkMd t ++ ("\n") ++ talksBody rest
      ∧ snakeStr t = "  - :snake: _" ++ String.intercalate (", ") (speakerNames t) ++ "_"
      ∧ ∃ pre post, talkMd t = pre ++ (snakeStr t ++ ("\n")) ++ post := by
  have hsn : speakerNames t = sps.map (fun sp => sp.name.getD ("Unknown")) := by
    rw [speakerNames, hsp]
    rfl
  have hget : (speakerNames t).get? i = some ("Unknown") := by
    rw [hsn, List.get?_map, List.get?_eq_get hi]
    have hname2 := hname
    rw [List.get_eq_getElem] at hname2
    simp [hname2]
  have hmem : ("Unknown" : String) ∈ speakerNames t := List.get?_mem hget
  have hne : speakerNames t ≠ [] := by
    intro hc
    rw [hc] at hget
    simp at hget
  refine ⟨hget, hmem, by simp [List.isEmpty_iff, hne], ?_, rfl, ?_⟩
  · rw [talksBody, if_neg (by simp [List.isEmpty_iff, hne])]
  · refine ⟨headingStr t ++ ("\n"),
      alarmStr t ++ ("\n") ++ descPart t.description ++ attachPart t.attachments
        ++ linkStr t, ?_⟩
    apply String.ext
    simp [talkMd, List.append_assoc]

/-- Witness for claim C10 at a concrete nameless speaker. -/
theorem claim_C10_witness :
    (wTalkE.speakers = some [⟨none⟩]
      ∧ (([⟨none⟩] : List Speaker).get ⟨0, by decide⟩).name = none)
      ∧ ((speakerNames wTalkE).get? 0 = some ("Unknown")
        ∧ ("Unknown" : String) ∈ speakerNames wTalkE
        ∧ ¬(speakerNames wTalkE).isEmpty = true
        ∧ talksBody [wTalkE] = talkMd wTalkE ++ ("\n") ++ talksBody []
        ∧ snakeStr wTalkE
            = "  - :snake: _" ++ String.intercalate (", ") (speakerNames wTalkE) ++ "_"
        ∧ ∃ pre post, talkMd wTalkE = pre ++ (snakeStr wTalkE ++ ("\n")) ++ post) :=
  ⟨⟨rfl, rfl⟩, claim_C10 wTalkE [⟨none⟩] [] 0 rfl (by decide) rfl⟩

end Sched
